import Mathlib

/-!
Shallow embedding of the experiment-portfolio core of the repository:
`src/keo/portfolio/rank.py`, `src/keo/portfolio/summarize.py`, and their
near-identical duplicates `orchestrator_agent/ranking.py` and
`orchestrator_agent/tools.py`.

Numeric dataframe columns are modelled as `ℚ`; a dataframe is its list of
rows together with a flag recording whether the derived `cv_holdout_gap`
column is present.  `df.sort_values(col, ascending=False)` is called with
pandas' default sort kind, which documents only that the output is a
permutation ordered by the key — not a tie order — so the sort is embedded
twice: as its documented contract (`SortValuesDescSpec`, a relation), and
as one concrete contract-satisfying function (`sortDescBy`) used for the
properties that do not depend on the order of equal keys.
-/

/-- One row of the experiments table (columns per `keo/core/schema.py`).
The `cv_holdout_gap` field carries the derived gap column; it is meaningful
only when the surrounding frame's `hasGapCol` flag is set. -/
structure Row where
  experiment_id : String
  model_type : String
  features_desc : String
  params_summary : String
  cv_metric : ℚ
  holdout_metric : ℚ
  train_time_seconds : ℚ
  notes : String
  cv_holdout_gap : ℚ
deriving DecidableEq, Repr

/-- A pandas dataframe of experiment rows: the rows in order, plus whether
the derived `cv_holdout_gap` column exists on the frame. -/
structure Frame where
  rows : List Row
  hasGapCol : Bool
deriving DecidableEq, Repr

/-- The base (non-derived) fields of a row, i.e. the eight CSV columns of
`keo/core/schema.py` without the derived gap column. -/
structure BaseRow where
  experiment_id : String
  model_type : String
  features_desc : String
  params_summary : String
  cv_metric : ℚ
  holdout_metric : ℚ
  train_time_seconds : ℚ
  notes : String
deriving DecidableEq, Repr

/-- Projection of a row onto its base (input CSV) fields. -/
def baseOf (r : Row) : BaseRow :=
  ⟨r.experiment_id, r.model_type, r.features_desc, r.params_summary,
   r.cv_metric, r.holdout_metric, r.train_time_seconds, r.notes⟩

/-- `series.min()` over a rational column.  The empty column gets a junk
default (pandas yields NaN there); every use below is either guarded by
non-emptiness or produces the empty output on both branches. -/
def listMin : List ℚ → ℚ
  | [] => 0
  | x :: xs => xs.foldl min x

/-- `series.max()` over a rational column, same conventions as `listMin`. -/
def listMax : List ℚ → ℚ
  | [] => 0
  | x :: xs => xs.foldl max x

/-- `series.mean()` over a rational column (sum divided by length). -/
def listMean (s : List ℚ) : ℚ := s.sum / (s.length : ℚ)

/-- Embeds `_normalize` of `rank.py` lines 10-16 (identical in
`ranking.py` lines 23-29): min-max normalize a column; a constant column
(`max_v == min_v`, which includes every singleton column) maps to all
zeros instead of dividing by zero. -/
def _normalize (s : List ℚ) : List ℚ :=
  let min_v := listMin s
  let max_v := listMax s
  if max_v = min_v then s.map (fun _ => 0)
  else s.map (fun x => (x - min_v) / (max_v - min_v))

/-- The strategy weight selection chain of `rank_experiments` (lines 28-35
of `rank.py`): three named strategies and a fall-through `else` used both
for `"balanced"` and for every unrecognized strategy string. -/
def weights (strategy : String) : ℚ × ℚ × ℚ :=
  if strategy = "leaderboard" then (1, 3/10, 1/10)
  else if strategy = "stability" then (4/5, 7/10, 1/10)
  else if strategy = "speed" then (3/5, 1/5, 7/10)
  else (1, 1/2, 3/10)

/-- Lines 20-22 of `rank.py`: on the function's local copy of the frame,
add the derived gap column when it is absent; a pre-existing gap column is
kept verbatim (it is not recomputed). -/
def withGap (df : Frame) : List Row :=
  if df.hasGapCol then df.rows
  else df.rows.map fun r => { r with cv_holdout_gap := r.cv_metric - r.holdout_metric }

/-- The scored frame in input order: the three normalized columns combined
elementwise with the strategy weights (`rank.py` lines 24-26 and 37),
zipped back onto the rows as the `rank_score` column. -/
def scoredRows (df : Frame) (strategy : String) : List (Row × ℚ) :=
  let rows := withGap df
  let cv_norm := _normalize (rows.map (·.cv_metric))
  let gap_norm := _normalize (rows.map (·.cv_holdout_gap))
  let time_norm := _normalize (rows.map (·.train_time_seconds))
  let w := weights strategy
  rows.zip (List.zipWith3 (fun a b c => w.1 * a - w.2.1 * b - w.2.2 * c)
    cv_norm gap_norm time_norm)

/-- One concrete rendering of
`df.sort_values(col, ascending=False).reset_index(drop=True)`: a
deterministic descending sort satisfying the sort's documented contract
(`SortValuesDescSpec`).  pandas' default sort kind documents no order for
equal keys, so properties that are sensitive to the relative order of
equal keys are settled against the contract relation, not against this
function. -/
def sortDescBy (key : α → ℚ) (l : List α) : List α :=
  l.mergeSort fun a b => decide (key b ≤ key a)

/-- Embeds `rank_experiments` (`rank.py` lines 19-38, duplicated in
`ranking.py` lines 32-72): ensure the gap column, score every row under the
strategy's weights, and return the rows sorted by `rank_score`
descending. -/
def rank_experiments (df : Frame) (strategy : String) : List (Row × ℚ) :=
  sortDescBy (fun p => p.2) (scoredRows df strategy)

/-- Per-model aggregate statistics, the values of the dictionary built by
`compute_model_family_stats`. -/
structure FamilyStats where
  n_runs : ℕ
  best_cv : ℚ
  mean_cv : ℚ
  mean_gap : ℚ
  mean_train_time : ℚ
deriving DecidableEq, Repr

/-- Embeds `compute_model_family_stats` (`summarize.py` lines 24-38) as the
mapping model_type ↦ statistics of its `groupby` group; a model type absent
from the frame maps to `none`.  The gap column is ensured exactly as in the
source (reused verbatim when present). -/
def compute_model_family_stats (df : Frame) : String → Option FamilyStats := fun m =>
  let rows := withGap df
  let g := rows.filter fun r => decide (r.model_type = m)
  if g.isEmpty then none
  else some
    { n_runs := g.length
      best_cv := listMax (g.map (·.cv_metric))
      mean_cv := listMean (g.map (·.cv_metric))
      mean_gap := listMean (g.map (·.cv_holdout_gap))
      mean_train_time := listMean (g.map (·.train_time_seconds)) }

/-- The summary dictionary built by `summarize_experiments`
(`summarize.py` lines 62-69); `model_counts` is the `value_counts`
dictionary viewed as a mapping model_type ↦ count. -/
structure Summary where
  n_experiments : ℕ
  model_counts : String → ℕ
  best_cv_experiment : Row
  worst_gap_experiment : Row
  min_train_time : ℚ
  max_train_time : ℚ
  mean_train_time : ℚ
  model_family_stats : String → Option FamilyStats

/-- Embeds `summarize_experiments` (`summarize.py` lines 41-69, duplicated
in `tools.py` lines 83-122).  `df_sorted_cv.iloc[0]` raises on an empty
frame, which the embedding renders as `none` (the call fails, no partial
structure is returned); on the local copy the gap column is recomputed
unconditionally (line 49) before the worst-gap pick. -/
def summarize_experiments (df : Frame) : Option Summary :=
  let n := df.rows.length
  let mc : String → ℕ := fun m => (df.rows.filter fun r => decide (r.model_type = m)).length
  match (sortDescBy (·.cv_metric) df.rows).head? with
  | none => none
  | some best =>
    let rows2 := df.rows.map fun r => { r with cv_holdout_gap := r.cv_metric - r.holdout_metric }
    match (sortDescBy (·.cv_holdout_gap) rows2).head? with
    | none => none
    | some worst =>
      some
        { n_experiments := n
          model_counts := mc
          best_cv_experiment := best
          worst_gap_experiment := worst
          min_train_time := listMin (df.rows.map (·.train_time_seconds))
          max_train_time := listMax (df.rows.map (·.train_time_seconds))
          mean_train_time := listMean (df.rows.map (·.train_time_seconds))
          model_family_stats := compute_model_family_stats ⟨rows2, true⟩ }

/-- Caller-visible effect of `rank_experiments`: its first statement is
`df = df.copy()` (`rank.py` line 20), so every later column assignment hits
a private copy; the first component is the caller's frame after the call
returns. -/
def rank_experiments_effect (df : Frame) (strategy : String) :
    Frame × List (Row × ℚ) :=
  (df, rank_experiments df strategy)

/-- Caller-visible effect of `summarize_experiments`: the only writes (the
unconditional gap recompute, `summarize.py` lines 48-49) happen after
`df = df.copy()`, so the caller's frame survives unchanged. -/
def summarize_experiments_effect (df : Frame) : Frame × Option Summary :=
  (df, summarize_experiments df)

/-- Spec-side definition, following the claim's words: the min-max
normalization of value `x` over column `col`, with the degenerate
`max = min` case mapped to `0`. -/
def specMinMaxNorm (col : List ℚ) (x : ℚ) : ℚ :=
  if listMax col = listMin col then 0
  else (x - listMin col) / (listMax col - listMin col)

/-- Spec-side weight table of section 4.2 of the specification: the four
recognized strategies and their weight triples; `none` elsewhere. -/
def specWeights (s : String) : Option (ℚ × ℚ × ℚ) :=
  if s = "leaderboard" then some (1, 3/10, 1/10)
  else if s = "stability" then some (4/5, 7/10, 1/10)
  else if s = "speed" then some (3/5, 1/5, 7/10)
  else if s = "balanced" then some (1, 1/2, 3/10)
  else none

/-- Replace every row's `holdout_metric` using `f` (a frame differing from
`df` only in that column). -/
def setHoldout (f : Row → ℚ) (df : Frame) : Frame :=
  ⟨df.rows.map fun r => { r with holdout_metric := f r }, df.hasGapCol⟩

/-- Mask the `holdout_metric` field of a row (used to compare rankings up
to that column). -/
def eraseHoldout (r : Row) : Row := { r with holdout_metric := 0 }

/-- The composite score of a single row, written pointwise: the weighted
combination of the three min-max normalized columns of the gap-completed
frame (the columnwise computation of `scoredRows`, expressed per row). -/
def rowScore (df : Frame) (strategy : String) (r : Row) : ℚ :=
  let rows := withGap df
  let w := weights strategy
  w.1 * specMinMaxNorm (rows.map (·.cv_metric)) r.cv_metric
    - w.2.1 * specMinMaxNorm (rows.map (·.cv_holdout_gap)) r.cv_holdout_gap
    - w.2.2 * specMinMaxNorm (rows.map (·.train_time_seconds)) r.train_time_seconds

/-- Concrete record of the test fixture (scenario A, record 0). -/
def exRowA : Row :=
  { experiment_id := "a", model_type := "LGBM", features_desc := "base"
    params_summary := "p1", cv_metric := 4/5, holdout_metric := 39/50
    train_time_seconds := 10, notes := "ok", cv_holdout_gap := 0 }

/-- Concrete record of the test fixture (scenario A, record 1). -/
def exRowB : Row :=
  { experiment_id := "b", model_type := "XGB", features_desc := "base"
    params_summary := "p2", cv_metric := 9/10, holdout_metric := 7/10
    train_time_seconds := 100, notes := "gap", cv_holdout_gap := 0 }

/-- Two-row concrete frame without a pre-existing gap column. -/
def exFrame : Frame := ⟨[exRowA, exRowB], false⟩

/-- Concrete frame carrying a pre-existing (and deliberately inconsistent)
gap column. -/
def exFrameGap : Frame :=
  ⟨[{ exRowA with cv_holdout_gap := 1/2 }, { exRowB with cv_holdout_gap := 1/4 }], true⟩

/-- The empty frame. -/
def emptyFrame : Frame := ⟨[], false⟩

/-- The documented contract of `df.sort_values(col, ascending=False)` with
the default sort kind: the output is some permutation of the input that is
non-increasing in the key.  The relative order of equal keys is left
unspecified by pandas (only the mergesort/stable kinds are documented
stable), so a faithful embedding of the sort is this relation; `sortDescBy`
realizes one contract-satisfying order. -/
def SortValuesDescSpec (key : α → ℚ) (l out : List α) : Prop :=
  out.Perm l ∧ out.Pairwise fun a b => key b ≤ key a

/-- The rankings `rank_experiments` may return under the sort contract: any
contract-satisfying descending order of the scored rows. -/
def RankOutput (df : Frame) (strategy : String) (out : List (Row × ℚ)) : Prop :=
  SortValuesDescSpec (fun p => p.2) (scoredRows df strategy) out

/-- The records the best-pick line of `summarize_experiments`
(`df.sort_values("cv_metric", ascending=False)` then `iloc[0]`) may return
under the sort contract: the head of some contract-satisfying descending
order of the rows. -/
def BestCvPick (df : Frame) (r : Row) : Prop :=
  ∃ out, SortValuesDescSpec (·.cv_metric) df.rows out ∧ out.head? = some r

/-- A record for the tie fixtures: all three scoring columns will be
constant across the frame, so every score is 0. -/
def tieRowA : Row :=
  { experiment_id := "a", model_type := "m", features_desc := "f"
    params_summary := "p", cv_metric := 2, holdout_metric := 1
    train_time_seconds := 5, notes := "n", cv_holdout_gap := 1 }

/-- Same scoring columns as `tieRowA`, different identifier. -/
def tieRowB : Row := { tieRowA with experiment_id := "b" }

/-- Two-row frame whose rows tie on every scoring column (gap column
pre-existing, so no derived column is added). -/
def exFrameTie : Frame := ⟨[tieRowA, tieRowB], true⟩

/-- The scored tie rows in the reverse of input order: a contract-
satisfying ranking of `exFrameTie` that breaks the tie against input
order. -/
def tieSwapped : List (Row × ℚ) := [(tieRowB, 0), (tieRowA, 0)]

/-! Helper lemmas about column minima and maxima. -/

theorem foldl_min_le_init (xs : List ℚ) (a : ℚ) : xs.foldl min a ≤ a := by
  induction xs generalizing a with
  | nil => simp
  | cons x xs ih => exact le_trans (ih (min a x)) (min_le_left a x)

theorem foldl_min_le_mem (xs : List ℚ) (a x : ℚ) (hx : x ∈ xs) :
    xs.foldl min a ≤ x := by
  induction xs generalizing a with
  | nil => cases hx
  | cons y ys ih =>
    rcases List.mem_cons.mp hx with rfl | h
    · exact le_trans (foldl_min_le_init ys (min a x)) (min_le_right a x)
    · exact ih (min a y) h

theorem listMin_le (s : List ℚ) (x : ℚ) (hx : x ∈ s) : listMin s ≤ x := by
  cases s with
  | nil => cases hx
  | cons y ys =>
    rcases List.mem_cons.mp hx with rfl | h
    · exact foldl_min_le_init ys x
    · exact foldl_min_le_mem ys y x h

theorem init_le_foldl_max (xs : List ℚ) (a : ℚ) : a ≤ xs.foldl max a := by
  induction xs generalizing a with
  | nil => simp
  | cons x xs ih => exact le_trans (le_max_left a x) (ih (max a x))

theorem mem_le_foldl_max (xs : List ℚ) (a x : ℚ) (hx : x ∈ xs) :
    x ≤ xs.foldl max a := by
  induction xs generalizing a with
  | nil => cases hx
  | cons y ys ih =>
    rcases List.mem_cons.mp hx with rfl | h
    · exact le_trans (le_max_right a x) (init_le_foldl_max ys (max a x))
    · exact ih (max a y) h

theorem le_listMax (s : List ℚ) (x : ℚ) (hx : x ∈ s) : x ≤ listMax s := by
  cases s with
  | nil => cases hx
  | cons y ys =>
    rcases List.mem_cons.mp hx with rfl | h
    · exact init_le_foldl_max ys x
    · exact mem_le_foldl_max ys y x h

theorem foldl_max_mem (xs : List ℚ) (a : ℚ) :
    xs.foldl max a = a ∨ xs.foldl max a ∈ xs := by
  induction xs generalizing a with
  | nil => exact Or.inl rfl
  | cons x xs ih =>
    rcases ih (max a x) with h | h
    · rcases max_choice a x with hm | hm
      · exact Or.inl (by rw [List.foldl_cons, h, hm])
      · exact Or.inr (by rw [List.foldl_cons, h, hm]; exact List.mem_cons_self x xs)
    · exact Or.inr (List.mem_cons_of_mem x h)

theorem listMax_mem (s : List ℚ) (hs : s ≠ []) : listMax s ∈ s := by
  cases s with
  | nil => exact absurd rfl hs
  | cons y ys =>
    rcases foldl_max_mem ys y with h | h
    · rw [listMax, h]; exact List.mem_cons_self y ys
    · exact List.mem_cons_of_mem y h

theorem listMax_le (s : List ℚ) (m : ℚ) (hs : s ≠ []) (h : ∀ x ∈ s, x ≤ m) :
    listMax s ≤ m :=
  h (listMax s) (listMax_mem s hs)

theorem listMax_eq_of (s : List ℚ) (m : ℚ) (hm : m ∈ s) (hb : ∀ x ∈ s, x ≤ m) :
    listMax s = m :=
  le_antisymm (listMax_le s m (List.ne_nil_of_mem hm) hb) (le_listMax s m hm)

theorem listMin_le_listMax (s : List ℚ) (hs : s ≠ []) : listMin s ≤ listMax s :=
  listMin_le s (listMax s) (listMax_mem s hs)

/-! Helper lemmas about normalization. -/

theorem _normalize_eq_map (s : List ℚ) :
    _normalize s = s.map (specMinMaxNorm s) := by
  unfold _normalize specMinMaxNorm
  by_cases h : listMax s = listMin s
  · simp [h]
  · simp [h]

theorem specMinMaxNorm_bounds (col : List ℚ) (x : ℚ) (hx : x ∈ col) :
    0 ≤ specMinMaxNorm col x ∧ specMinMaxNorm col x ≤ 1 := by
  unfold specMinMaxNorm
  by_cases h : listMax col = listMin col
  · simp [h]
  · have h1 : listMin col ≤ x := listMin_le col x hx
    have h2 : x ≤ listMax col := le_listMax col x hx
    have h3 : listMin col < listMax col :=
      lt_of_le_of_ne (le_trans h1 h2) (Ne.symm h)
    have h4 : 0 < listMax col - listMin col := by linarith
    rw [if_neg h]
    constructor
    · exact div_nonneg (by linarith) (le_of_lt h4)
    · rw [div_le_one h4]; linarith

/-! Bridging the columnwise score computation to a per-row formula. -/

theorem zipWith3_map_same (f : β → β → β → γ) (g h k : α → β) (l : List α) :
    List.zipWith3 f (l.map g) (l.map h) (l.map k) =
      l.map fun x => f (g x) (h x) (k x) := by
  induction l with
  | nil => rfl
  | cons x xs ih => simp [List.zipWith3, ih]

theorem zip_self_map (l : List α) (g : α → β) :
    l.zip (l.map g) = l.map fun x => (x, g x) := by
  induction l with
  | nil => rfl
  | cons x xs ih => simp [ih]

theorem scoredRows_eq_map (df : Frame) (s : String) :
    scoredRows df s = (withGap df).map fun r => (r, rowScore df s r) := by
  simp only [scoredRows, rowScore]
  rw [_normalize_eq_map, _normalize_eq_map, _normalize_eq_map,
    List.map_map, List.map_map, List.map_map, zipWith3_map_same, zip_self_map]
  rfl

theorem scoredRows_length (df : Frame) (s : String) :
    (scoredRows df s).length = df.rows.length := by
  rw [scoredRows_eq_map, List.length_map]
  unfold withGap
  by_cases h : df.hasGapCol
  · simp [h]
  · simp [h]

/-! Properties of the stable descending sort. -/

theorem sortDescBy_perm (key : α → ℚ) (l : List α) : (sortDescBy key l).Perm l :=
  List.mergeSort_perm l _

theorem sortDescBy_length (key : α → ℚ) (l : List α) :
    (sortDescBy key l).length = l.length :=
  (sortDescBy_perm key l).length_eq

theorem sortDescBy_sorted (key : α → ℚ) (l : List α) :
    (sortDescBy key l).Pairwise fun a b => key b ≤ key a := by
  have h := @List.sorted_mergeSort α (fun a b => decide (key b ≤ key a))
    (fun a b c h1 h2 => by
      simp only [decide_eq_true_eq] at *
      exact le_trans h2 h1)
    (fun a b => by
      simp only [Bool.or_eq_true, decide_eq_true_eq]
      exact le_total (key b) (key a))
    l
  exact h.imp fun hab => by simpa using hab

theorem sortDescBy_ne_nil (key : α → ℚ) (l : List α) (hl : l ≠ []) :
    sortDescBy key l ≠ [] := by
  intro h0
  have hperm := sortDescBy_perm key l
  rw [h0] at hperm
  exact hl (hperm.symm.eq_nil)

/-! Bridging weights to the spec-side table, and ranking membership. -/

theorem weights_eq_of_specWeights (s : String) (w : ℚ × ℚ × ℚ)
    (hw : specWeights s = some w) : weights s = w := by
  unfold specWeights at hw
  unfold weights
  by_cases h1 : s = "leaderboard"
  · simp [h1] at hw ⊢; exact hw
  · by_cases h2 : s = "stability"
    · simp [h1, h2] at hw ⊢; exact hw
    · by_cases h3 : s = "speed"
      · simp [h1, h2, h3] at hw ⊢; exact hw
      · by_cases h4 : s = "balanced"
        · simp [h1, h2, h3, h4] at hw ⊢; exact hw
        · simp [h1, h2, h3, h4] at hw

theorem mem_rank_experiments (df : Frame) (s : String) (p : Row × ℚ)
    (hp : p ∈ rank_experiments df s) :
    p.1 ∈ withGap df ∧ p.2 = rowScore df s p.1 := by
  rw [rank_experiments, sortDescBy] at hp
  have hp' : p ∈ scoredRows df s := List.mem_mergeSort.mp hp
  rw [scoredRows_eq_map] at hp'
  obtain ⟨r, hr, hrp⟩ := List.mem_map.mp hp'
  constructor
  · rw [← hrp]; exact hr
  · rw [← hrp]

/-- C2: whenever a scoring column has max equal to min — which includes
every single-record column — every normalized value of that column is
exactly 0; moreover singleton columns normalize to [0], and the dividing
branch of the normalization is only ever taken with a nonzero
denominator. -/
theorem C2_degenerate_normalize (s : List ℚ) (h : listMax s = listMin s) :
    (∀ y ∈ _normalize s, y = 0) ∧ (∀ x : ℚ, _normalize [x] = [0]) ∧
      (∀ t : List ℚ, listMax t ≠ listMin t → listMax t - listMin t ≠ 0) := by
  refine ⟨?_, ?_, ?_⟩
  · intro y hy
    unfold _normalize at hy
    rw [if_pos h] at hy
    obtain ⟨x, _, hxy⟩ := List.mem_map.mp hy
    exact hxy.symm
  · intro x
    unfold _normalize
    simp [listMax, listMin]
  · intro t ht
    exact sub_ne_zero.mpr ht

theorem C2_witness :
    (listMax [(3:ℚ), 3] = listMin [(3:ℚ), 3]) ∧
      ((∀ y ∈ _normalize [(3:ℚ), 3], y = 0) ∧ (∀ x : ℚ, _normalize [x] = [0]) ∧
        (∀ t : List ℚ, listMax t ≠ listMin t → listMax t - listMin t ≠ 0)) :=
  ⟨by decide, C2_degenerate_normalize [(3:ℚ), 3] (by decide)⟩

/-- C3 counterexample: with the unrecognized strategy string "wat" the
code does not fail and does return a ranking — here a full ranking of the
two-row fixture — contradicting the claim that an InvalidInput error is
raised and no ranking is returned. -/
theorem C3_counterexample : (rank_experiments exFrame "wat").length = 2 := by
  show (sortDescBy _ (scoredRows exFrame "wat")).length = 2
  rw [sortDescBy_length, scoredRows_length]
  rfl

/-- C3 amended: an unrecognized strategy string does not fail; the weight
selection falls through to its `else` branch, so ranking with it returns
exactly the balanced ranking. -/
theorem C3_amended (df : Frame) (s : String) (h1 : s ≠ "leaderboard")
    (h2 : s ≠ "stability") (h3 : s ≠ "speed") :
    rank_experiments df s = rank_experiments df "balanced" := by
  have hw : weights s = weights "balanced" := by
    unfold weights
    rw [if_neg h1, if_neg h2, if_neg h3]
    simp
  unfold rank_experiments scoredRows
  rw [hw]

theorem C3_amended_witness :
    ("wat" ≠ "leaderboard") ∧ ("wat" ≠ "stability") ∧ ("wat" ≠ "speed") ∧
      rank_experiments exFrame "wat" = rank_experiments exFrame "balanced" :=
  ⟨by decide, by decide, by decide,
    C3_amended exFrame "wat" (by decide) (by decide) (by decide)⟩

/-- C4 counterexample: on the empty record set `rank` does not fail — it
returns the empty ranking as an ordinary result (shown for "balanced") —
so it is not true that both calls fail; `summarize` is the only one of
the two that fails (returns no structure). -/
theorem C4_counterexample :
    rank_experiments emptyFrame "balanced" = [] ∧
      (summarize_experiments emptyFrame).isSome = false := by
  constructor
  · have hl : scoredRows emptyFrame "balanced" = [] := by
      have hlen := scoredRows_length emptyFrame "balanced"
      exact List.length_eq_zero.mp hlen
    show sortDescBy _ (scoredRows emptyFrame "balanced") = []
    rw [hl, sortDescBy]
    simp
  · simp [summarize_experiments, emptyFrame, sortDescBy]

/-- C4 amended: on an empty record set, `summarize` fails (the positional
row lookup `iloc[0]` on the empty sorted frame) and returns no partial
structure, while `rank` does not fail: it returns an empty ranking, for
every strategy. -/
theorem C4_amended (df : Frame) (h : df.rows = []) :
    summarize_experiments df = none ∧ ∀ s, rank_experiments df s = [] := by
  constructor
  · simp [summarize_experiments, h, sortDescBy]
  · intro s
    have hl : scoredRows df s = [] := by
      have hlen := scoredRows_length df s
      rw [h] at hlen
      exact List.length_eq_zero.mp (by simpa using hlen)
    unfold rank_experiments
    rw [hl, sortDescBy]
    simp

theorem C4_amended_witness :
    (emptyFrame.rows = []) ∧
      (summarize_experiments emptyFrame = none ∧
        ∀ s, rank_experiments emptyFrame s = []) :=
  ⟨rfl, C4_amended emptyFrame rfl⟩

/-- C7: neither rank nor summarize changes the caller's record set — both
copy the frame before writing any column, so after either call the
caller's frame is exactly the frame passed in (in particular every
pre-existing field of every record is unchanged). -/
theorem C7_no_caller_mutation (df : Frame) (s : String) :
    (rank_experiments_effect df s).1 = df ∧
      (summarize_experiments_effect df).1 = df :=
  ⟨rfl, rfl⟩

/-- C1: for every non-empty record set and every recognized strategy, the
rank score attached to each record is exactly
`w_cv * cv_norm - w_gap * gap_norm - w_time * time_norm`, where the three
norms are the min-max normalizations of the three scoring columns over the
full (gap-completed) input set and the weight triple is the one the spec
table assigns to the strategy. -/
theorem C1_composite_score (df : Frame) (s : String) (w : ℚ × ℚ × ℚ)
    (hne : df.rows ≠ []) (hw : specWeights s = some w) :
    ∀ p ∈ rank_experiments df s,
      p.2 = w.1 * specMinMaxNorm ((withGap df).map (·.cv_metric)) p.1.cv_metric
          - w.2.1 * specMinMaxNorm ((withGap df).map (·.cv_holdout_gap)) p.1.cv_holdout_gap
          - w.2.2 * specMinMaxNorm ((withGap df).map (·.train_time_seconds)) p.1.train_time_seconds := by
  intro p hp
  rw [(mem_rank_experiments df s p hp).2]
  simp only [rowScore]
  rw [weights_eq_of_specWeights s w hw]

theorem C1_witness :
    (exFrame.rows ≠ []) ∧ specWeights "balanced" = some (1, 1/2, 3/10) ∧
      ∀ p ∈ rank_experiments exFrame "balanced",
        p.2 = (1 : ℚ) * specMinMaxNorm ((withGap exFrame).map (·.cv_metric)) p.1.cv_metric
            - (1/2 : ℚ) * specMinMaxNorm ((withGap exFrame).map (·.cv_holdout_gap)) p.1.cv_holdout_gap
            - (3/10 : ℚ) * specMinMaxNorm ((withGap exFrame).map (·.train_time_seconds)) p.1.train_time_seconds :=
  ⟨by decide, by rfl,
    C1_composite_score exFrame "balanced" (1, 1/2, 3/10) (by decide) (by rfl)⟩

/-- C10: for every non-empty record set and recognized strategy, every
min-max normalized value used in scoring lies in [0, 1], and consequently
every rank score lies in the interval [-(w_gap + w_time), w_cv]; for the
four recognized strategies this is contained in [-9/10, 1]. -/
theorem C10_score_bounds (df : Frame) (s : String) (w : ℚ × ℚ × ℚ)
    (hne : df.rows ≠ []) (hw : specWeights s = some w) :
    ∀ p ∈ rank_experiments df s,
      (0 ≤ specMinMaxNorm ((withGap df).map (·.cv_metric)) p.1.cv_metric ∧
        specMinMaxNorm ((withGap df).map (·.cv_metric)) p.1.cv_metric ≤ 1) ∧
      (0 ≤ specMinMaxNorm ((withGap df).map (·.cv_holdout_gap)) p.1.cv_holdout_gap ∧
        specMinMaxNorm ((withGap df).map (·.cv_holdout_gap)) p.1.cv_holdout_gap ≤ 1) ∧
      (0 ≤ specMinMaxNorm ((withGap df).map (·.train_time_seconds)) p.1.train_time_seconds ∧
        specMinMaxNorm ((withGap df).map (·.train_time_seconds)) p.1.train_time_seconds ≤ 1) ∧
      (-(w.2.1 + w.2.2) ≤ p.2 ∧ p.2 ≤ w.1) ∧
      (-(9/10 : ℚ) ≤ p.2 ∧ p.2 ≤ 1) := by
  intro p hp
  obtain ⟨hmem, hsc⟩ := mem_rank_experiments df s p hp
  have hcv := specMinMaxNorm_bounds ((withGap df).map (·.cv_metric)) p.1.cv_metric
    (List.mem_map_of_mem _ hmem)
  have hgap := specMinMaxNorm_bounds ((withGap df).map (·.cv_holdout_gap)) p.1.cv_holdout_gap
    (List.mem_map_of_mem _ hmem)
  have htime := specMinMaxNorm_bounds ((withGap df).map (·.train_time_seconds)) p.1.train_time_seconds
    (List.mem_map_of_mem _ hmem)
  have hsc' : p.2
      = w.1 * specMinMaxNorm ((withGap df).map (·.cv_metric)) p.1.cv_metric
      - w.2.1 * specMinMaxNorm ((withGap df).map (·.cv_holdout_gap)) p.1.cv_holdout_gap
      - w.2.2 * specMinMaxNorm ((withGap df).map (·.train_time_seconds)) p.1.train_time_seconds := by
    rw [hsc]
    simp only [rowScore]
    rw [weights_eq_of_specWeights s w hw]
  have hwvals : (0 ≤ w.1 ∧ w.1 ≤ 1) ∧ 0 ≤ w.2.1 ∧ 0 ≤ w.2.2 ∧ w.2.1 + w.2.2 ≤ 9/10 := by
    unfold specWeights at hw
    split_ifs at hw <;> injection hw with hh <;> rw [← hh] <;> norm_num
  obtain ⟨⟨hw1a, hw1b⟩, hw2, hw3, hw23⟩ := hwvals
  have t1 := mul_nonneg hw1a hcv.1
  have t2 := mul_le_of_le_one_right hw1a hcv.2
  have t3 := mul_nonneg hw2 hgap.1
  have t4 := mul_le_of_le_one_right hw2 hgap.2
  have t5 := mul_nonneg hw3 htime.1
  have t6 := mul_le_of_le_one_right hw3 htime.2
  refine ⟨hcv, hgap, htime, ⟨?_, ?_⟩, ?_, ?_⟩ <;> rw [hsc'] <;> linarith

theorem C10_witness :
    (exFrame.rows ≠ []) ∧ specWeights "speed" = some (3/5, 1/5, 7/10) ∧
      ∀ p ∈ rank_experiments exFrame "speed",
        (0 ≤ specMinMaxNorm ((withGap exFrame).map (·.cv_metric)) p.1.cv_metric ∧
          specMinMaxNorm ((withGap exFrame).map (·.cv_metric)) p.1.cv_metric ≤ 1) ∧
        (0 ≤ specMinMaxNorm ((withGap exFrame).map (·.cv_holdout_gap)) p.1.cv_holdout_gap ∧
          specMinMaxNorm ((withGap exFrame).map (·.cv_holdout_gap)) p.1.cv_holdout_gap ≤ 1) ∧
        (0 ≤ specMinMaxNorm ((withGap exFrame).map (·.train_time_seconds)) p.1.train_time_seconds ∧
          specMinMaxNorm ((withGap exFrame).map (·.train_time_seconds)) p.1.train_time_seconds ≤ 1) ∧
        (-((3/5, 1/5, 7/10) : ℚ × ℚ × ℚ).2.1 - ((3/5, 1/5, 7/10) : ℚ × ℚ × ℚ).2.2 ≤ p.2 ∧ p.2 ≤ (3/5 : ℚ)) ∧
        (-(9/10 : ℚ) ≤ p.2 ∧ p.2 ≤ 1) := by
  refine ⟨by decide, by rfl, ?_⟩
  intro p hp
  have h := C10_score_bounds exFrame "speed" (3/5, 1/5, 7/10) (by decide) (by rfl) p hp
  refine ⟨h.1, h.2.1, h.2.2.1, ⟨?_, h.2.2.2.1.2⟩, h.2.2.2.2⟩
  have := h.2.2.2.1.1
  linarith

/-- C9: the rows of the ranking are a permutation of the input rows with
every base field preserved; the only changes are the derived gap column
(filled from cv - holdout exactly when it was absent from the input) and
the attached rank score. -/
theorem C9_output_permutation (df : Frame) (s : String) (h : df.rows ≠ []) :
    ((rank_experiments df s).map (fun p => baseOf p.1)).Perm (df.rows.map baseOf) ∧
      (df.hasGapCol = false → ∀ p ∈ rank_experiments df s,
        p.1.cv_holdout_gap = p.1.cv_metric - p.1.holdout_metric) ∧
      (df.hasGapCol = true → ((rank_experiments df s).map Prod.fst).Perm df.rows) := by
  have hperm : (rank_experiments df s).Perm (scoredRows df s) := sortDescBy_perm _ _
  refine ⟨?_, ?_, ?_⟩
  · have h1 := hperm.map fun p => baseOf p.1
    have h2 : (scoredRows df s).map (fun p => baseOf p.1) = df.rows.map baseOf := by
      rw [scoredRows_eq_map, List.map_map]
      show (withGap df).map _ = _
      unfold withGap
      by_cases hg : df.hasGapCol
      · rw [if_pos hg]
        rfl
      · rw [if_neg hg, List.map_map]
        rfl
    rw [h2] at h1
    exact h1
  · intro hg p hp
    have hmem := (mem_rank_experiments df s p hp).1
    unfold withGap at hmem
    rw [if_neg (by simp [hg])] at hmem
    obtain ⟨r, _, hr⟩ := List.mem_map.mp hmem
    rw [← hr]
  · intro hg
    have h1 := hperm.map Prod.fst
    have h2 : (scoredRows df s).map Prod.fst = df.rows := by
      rw [scoredRows_eq_map, List.map_map]
      show (withGap df).map _ = _
      unfold withGap
      rw [if_pos hg]
      exact List.map_id df.rows
    rw [h2] at h1
    exact h1

theorem C9_witness :
    (exFrameGap.rows ≠ []) ∧
      (((rank_experiments exFrameGap "balanced").map (fun p => baseOf p.1)).Perm
          (exFrameGap.rows.map baseOf) ∧
        (exFrameGap.hasGapCol = false → ∀ p ∈ rank_experiments exFrameGap "balanced",
          p.1.cv_holdout_gap = p.1.cv_metric - p.1.holdout_metric) ∧
        (exFrameGap.hasGapCol = true →
          ((rank_experiments exFrameGap "balanced").map Prod.fst).Perm exFrameGap.rows)) :=
  ⟨by decide, C9_output_permutation exFrameGap "balanced" (by decide)⟩

/-- C8: when the input already carries a cv_holdout_gap column, rank uses
the stored gap values verbatim and never recomputes cv - holdout: changing
every record's holdout_metric arbitrarily leaves the ranking — scores,
order, and every field except the holdout column itself — unchanged, so a
stale pre-existing gap column determines the ranking. -/
theorem C8_stored_gap_used (df : Frame) (s : String) (f : Row → ℚ)
    (h : df.hasGapCol = true) :
    (rank_experiments (setHoldout f df) s).map (fun p => (eraseHoldout p.1, p.2)) =
      (rank_experiments df s).map (fun p => (eraseHoldout p.1, p.2)) := by
  have hcols : withGap (setHoldout f df)
      = df.rows.map fun r => { r with holdout_metric := f r } := by
    unfold withGap setHoldout
    simp [h]
  have hcols0 : withGap df = df.rows := by
    unfold withGap
    rw [if_pos h]
  have hcv : (withGap (setHoldout f df)).map (·.cv_metric)
      = (withGap df).map (·.cv_metric) := by
    rw [hcols, hcols0, List.map_map]
    rfl
  have hgap : (withGap (setHoldout f df)).map (·.cv_holdout_gap)
      = (withGap df).map (·.cv_holdout_gap) := by
    rw [hcols, hcols0, List.map_map]
    rfl
  have htime : (withGap (setHoldout f df)).map (·.train_time_seconds)
      = (withGap df).map (·.train_time_seconds) := by
    rw [hcols, hcols0, List.map_map]
    rfl
  have hscored : scoredRows (setHoldout f df) s
      = (scoredRows df s).map fun p => ({ p.1 with holdout_metric := f p.1 }, p.2) := by
    rw [scoredRows_eq_map, scoredRows_eq_map, hcols, hcols0]
    simp only [List.map_map]
    apply List.map_congr_left
    intro r _
    have hrs : rowScore (setHoldout f df) s { r with holdout_metric := f r }
        = rowScore df s r := by
      simp only [rowScore]
      rw [hcv, hgap, htime]
    show ({ r with holdout_metric := f r },
        rowScore (setHoldout f df) s { r with holdout_metric := f r })
      = ({ r with holdout_metric := f r }, rowScore df s r)
    rw [hrs]
  have hsort : sortDescBy (fun p => p.2)
        ((scoredRows df s).map fun p => ({ p.1 with holdout_metric := f p.1 }, p.2))
      = (sortDescBy (fun p => p.2) (scoredRows df s)).map
          fun p => ({ p.1 with holdout_metric := f p.1 }, p.2) := by
    unfold sortDescBy
    exact (@List.map_mergeSort (Row × ℚ) (Row × ℚ)
      (fun a b => decide (b.2 ≤ a.2)) (fun a b => decide (b.2 ≤ a.2))
      (fun p => ({ p.1 with holdout_metric := f p.1 }, p.2)) (scoredRows df s)
      (fun a _ b _ => rfl)).symm
  show (sortDescBy _ (scoredRows (setHoldout f df) s)).map _ = _
  rw [hscored, hsort, List.map_map]
  show (sortDescBy _ (scoredRows df s)).map _ = _
  rfl

theorem C8_witness :
    (exFrameGap.hasGapCol = true) ∧
      (rank_experiments (setHoldout (fun _ => 99) exFrameGap) "stability").map
          (fun p => (eraseHoldout p.1, p.2)) =
        (rank_experiments exFrameGap "stability").map (fun p => (eraseHoldout p.1, p.2)) :=
  ⟨rfl, C8_stored_gap_used exFrameGap "stability" (fun _ => 99) rfl⟩

/-! The tie fixture: every score of `exFrameTie` is 0. -/

theorem scoredRows_tie :
    scoredRows exFrameTie "balanced" = [(tieRowA, 0), (tieRowB, 0)] := by
  have hgap : withGap exFrameTie = [tieRowA, tieRowB] := by
    unfold withGap exFrameTie
    rfl
  have hz : ∀ r, rowScore exFrameTie "balanced" r = 0 := by
    intro r
    simp only [rowScore]
    have h1 : specMinMaxNorm ((withGap exFrameTie).map (·.cv_metric)) r.cv_metric = 0 := by
      unfold specMinMaxNorm
      rw [hgap, if_pos (by decide)]
    have h2 : specMinMaxNorm ((withGap exFrameTie).map (·.cv_holdout_gap)) r.cv_holdout_gap
        = 0 := by
      unfold specMinMaxNorm
      rw [hgap, if_pos (by decide)]
    have h3 : specMinMaxNorm ((withGap exFrameTie).map (·.train_time_seconds))
        r.train_time_seconds = 0 := by
      unfold specMinMaxNorm
      rw [hgap, if_pos (by decide)]
    rw [h1, h2, h3]
    simp
  rw [scoredRows_eq_map, hgap]
  simp [hz]

/-- C5 counterexample: on a two-row frame whose rows tie on every scoring
column, the list with the two (equal-score) rows swapped satisfies the
sort contract `rank_experiments` relies on, yet its equal-score records do
not appear in input order — so the code does not guarantee the claimed
stable tie-break. -/
theorem C5_counterexample :
    RankOutput exFrameTie "balanced" tieSwapped ∧
      ¬ (tieSwapped.filter (fun p => decide (p.2 = 0)) =
          (scoredRows exFrameTie "balanced").filter (fun p => decide (p.2 = 0))) := by
  refine ⟨⟨?_, ?_⟩, ?_⟩
  · rw [scoredRows_tie]
    exact List.Perm.swap _ _ _
  · decide
  · rw [scoredRows_tie]
    decide

/-- C5 amended: for every record set and strategy, every output admitted
by the sort's documented contract — `rank_experiments`' actual output is
proved to be one of them — has exactly the input's length and
non-increasing scores; the relative order of equal-score records is left
unspecified by the code (the default sort kind is not documented
stable). -/
theorem C5_amended (df : Frame) (s : String) (out : List (Row × ℚ))
    (h : df.rows ≠ []) (hout : RankOutput df s out) :
    out.length = df.rows.length ∧ out.Pairwise (fun p q => q.2 ≤ p.2) ∧
      RankOutput df s (rank_experiments df s) := by
  refine ⟨?_, hout.2, ?_⟩
  · rw [hout.1.length_eq, scoredRows_length]
  · exact ⟨sortDescBy_perm _ _, sortDescBy_sorted _ _⟩

theorem C5_amended_witness :
    (exFrame.rows ≠ []) ∧
      RankOutput exFrame "balanced" (rank_experiments exFrame "balanced") ∧
      ((rank_experiments exFrame "balanced").length = exFrame.rows.length ∧
        (rank_experiments exFrame "balanced").Pairwise (fun p q => q.2 ≤ p.2) ∧
        RankOutput exFrame "balanced" (rank_experiments exFrame "balanced")) :=
  ⟨by decide, ⟨sortDescBy_perm _ _, sortDescBy_sorted _ _⟩,
    C5_amended exFrame "balanced" (rank_experiments exFrame "balanced") (by decide)
      ⟨sortDescBy_perm _ _, sortDescBy_sorted _ _⟩⟩

/-- C6 counterexample: on a frame whose two rows tie for the maximum
cv_metric, the later row `tieRowB` is an admissible best pick (it heads a
contract-satisfying descending order of the rows), while the earliest
record attaining the maximum is `tieRowA ≠ tieRowB` — so the code does not
guarantee that the earliest tied record is chosen. -/
theorem C6_counterexample :
    BestCvPick exFrameTie tieRowB ∧
      exFrameTie.rows.find?
          (fun r => decide (r.cv_metric = listMax (exFrameTie.rows.map (·.cv_metric))))
        = some tieRowA ∧ tieRowA ≠ tieRowB := by
  refine ⟨⟨[tieRowB, tieRowA], ⟨?_, ?_⟩, rfl⟩, ?_, ?_⟩
  · show ([tieRowB, tieRowA]).Perm [tieRowA, tieRowB]
    exact List.Perm.swap _ _ _
  · decide
  · decide
  · decide

/-- C6 amended: for every non-empty record set, every best pick the sort
contract admits attains the maximum cv_metric over all records — and
summarize succeeds, its best_cv_experiment being one such admissible
pick; which record is chosen among several tied at the maximum is left
unspecified by the code. -/
theorem C6_amended (df : Frame) (h : df.rows ≠ []) :
    (∀ r, BestCvPick df r → r.cv_metric = listMax (df.rows.map (·.cv_metric))) ∧
      ∃ str, summarize_experiments df = some str ∧
        BestCvPick df str.best_cv_experiment := by
  constructor
  · rintro r ⟨out, ⟨hperm, hpair⟩, hhead⟩
    obtain ⟨x, t, rfl⟩ : ∃ x t, out = x :: t := by
      cases out with
      | nil => cases hhead
      | cons x t => exact ⟨x, t, rfl⟩
    have hx : x = r := by
      rw [List.head?_cons] at hhead
      exact Option.some.inj hhead
    subst hx
    have hrmem : x ∈ df.rows := hperm.mem_iff.mp (List.mem_cons_self x t)
    have hub : ∀ y ∈ df.rows, y.cv_metric ≤ x.cv_metric := by
      intro y hy
      have hy' : y ∈ x :: t := hperm.mem_iff.mpr hy
      rcases List.mem_cons.mp hy' with rfl | hyt
      · exact le_refl _
      · exact (List.pairwise_cons.mp hpair).1 y hyt
    refine (listMax_eq_of _ _ (List.mem_map_of_mem _ hrmem) ?_).symm
    intro y hy
    obtain ⟨z, hz, rfl⟩ := List.mem_map.mp hy
    exact hub z hz
  · obtain ⟨b, t1, hb⟩ :=
      List.exists_cons_of_ne_nil (sortDescBy_ne_nil (·.cv_metric) df.rows h)
    have hbhead : (sortDescBy (·.cv_metric) df.rows).head? = some b := by
      rw [hb]
      rfl
    have hrows2 :
        (df.rows.map fun r => { r with cv_holdout_gap := r.cv_metric - r.holdout_metric })
          ≠ [] := by
      simp [h]
    obtain ⟨x, t2, hxt⟩ :=
      List.exists_cons_of_ne_nil (sortDescBy_ne_nil (·.cv_holdout_gap) _ hrows2)
    have hwr :
        (sortDescBy (·.cv_holdout_gap)
          (df.rows.map fun r => { r with cv_holdout_gap := r.cv_metric - r.holdout_metric })).head?
          = some x := by
      rw [hxt]
      rfl
    have hsum : summarize_experiments df = some
        { n_experiments := df.rows.length
          model_counts := fun m => (df.rows.filter fun r => decide (r.model_type = m)).length
          best_cv_experiment := b
          worst_gap_experiment := x
          min_train_time := listMin (df.rows.map (·.train_time_seconds))
          max_train_time := listMax (df.rows.map (·.train_time_seconds))
          mean_train_time := listMean (df.rows.map (·.train_time_seconds))
          model_family_stats := compute_model_family_stats
            ⟨df.rows.map fun r => { r with cv_holdout_gap := r.cv_metric - r.holdout_metric },
              true⟩ } := by
      simp only [summarize_experiments]
      rw [hbhead, hwr]
    exact ⟨_, hsum, sortDescBy (·.cv_metric) df.rows,
      ⟨sortDescBy_perm _ _, sortDescBy_sorted _ _⟩, hbhead⟩

theorem C6_amended_witness :
    (exFrame.rows ≠ []) ∧
      ((∀ r, BestCvPick exFrame r →
          r.cv_metric = listMax (exFrame.rows.map (·.cv_metric))) ∧
        ∃ str, summarize_experiments exFrame = some str ∧
          BestCvPick exFrame str.best_cv_experiment) :=
  ⟨by decide, C6_amended exFrame (by decide)⟩
